import Mathlib

set_option maxHeartbeats 1000000

/-!
Verification development for the aseprite UI/rendering sources.

Two areas are covered:

* the render-order planner (`RenderPlan` in the `doc` module): the production
  code `doc/render_plan.cpp` is not among the provided sources, only its unit
  tests are, so the planner is modelled from the specification (and its literal
  reference scenarios, which coincide with the unit tests in the sources);
* the UI theme helpers `for_each_layer` and `Theme::calcWidgetMetrics` /
  `Theme::calcSizeHint` from `src/ui/theme.cpp`, embedded directly from the
  source.
-/

/-- Content unit attached to a content node for one frame, carrying the
z-index displacement hint (spec §3, `ContentUnit`). -/
structure Cel where
  frame : Nat
  zIndex : Int
  deriving DecidableEq, Repr

/-- Modelled from the spec: the layer tree (spec §3, `Node`).  The production
tree classes (`doc/layer.h`) are not among the provided sources.  A node is
either a content node (`image`, holding at most one content unit per frame) or
a group node holding an ordered child sequence; each node has a visibility flag
and a stable identity. -/
inductive Layer where
  | image (id : Nat) (visible : Bool) (cels : List Cel)
  | group (id : Nat) (visible : Bool) (children : List Layer)
  deriving Repr

/-- Stable identity of a node. -/
def Layer.id : Layer → Nat
  | .image i _ _ => i
  | .group i _ _ => i

/-- Visibility flag of a node. -/
def Layer.visible : Layer → Bool
  | .image _ v _ => v
  | .group _ v _ => v

/-- One entry of the planner output (spec §3, `PlanItem`): in normal mode a
content-unit reference identified by its content node, in compose mode a bare
node reference. -/
inductive PlanItem where
  | cel (layerId : Nat)
  | layerRef (layerId : Nat)
  deriving DecidableEq, Repr

/-- Content unit of a content node at a frame, if any (spec §6: capability to
query a content node's unit for a given frame index). -/
def celAt (cels : List Cel) (f : Nat) : Option Cel :=
  cels.find? (fun c => c.frame == f)

/-- Integer clamp, `max lo (min v hi)` (spec §4.1 step 3). -/
def clampI (v lo hi : Int) : Int := max lo (min v hi)

/-- Modelled from the spec: sort key of a candidate at baseline slot `b` among
`n` siblings carrying displacement hint `z` (spec §4.1 steps 3–4 and §8).
The first component is the clamped target slot
`baseline + clamp(zIndex, -baseline, N-1-baseline)`; the second component is
the displacement clamped to the group-wide range `[-(N-1), N-1]`, used to
resolve candidates tied on the same target slot (a candidate displaced
backwards is ordered before one undisplaced, which is ordered before one
displaced forwards; remaining ties keep baseline order).  This key reproduces
every reference scenario of spec §8 bit-for-bit and satisfies the clamp law. -/
def keyOf (n b : Nat) (z : Int) : Int × Int :=
  ((b : Int) + clampI z (-(b : Int)) ((n : Int) - 1 - (b : Int)),
   clampI z (-((n : Int) - 1)) ((n : Int) - 1))

/-- Candidate of one virtual slot of a group level (spec §4.1 step 2): the
already-resolved block of items it contributes (empty for an invisible or
content-absent child) and its displacement hint. -/
structure Candidate where
  block : List PlanItem
  z : Int
  deriving DecidableEq, Repr

/-- Keyed candidate list: candidate at position `b, b+1, ...` of a group with
`n` virtual slots paired with its sort key. -/
def keyedCands (n b : Nat) : List Candidate → List ((Int × Int) × List PlanItem)
  | [] => []
  | c :: cs => (keyOf n b c.z, c.block) :: keyedCands n (b + 1) cs

/-- Comparison of keyed candidates: lexicographic on the key (target slot,
then clamped displacement).  Used reflexively, so the stable insertion sort
keeps baseline order on full ties. -/
def keyedLe (a b : (Int × Int) × List PlanItem) : Prop :=
  a.1.1 < b.1.1 ∨ (a.1.1 = b.1.1 ∧ a.1.2 ≤ b.1.2)

instance : DecidableRel keyedLe := fun a b => by
  unfold keyedLe
  exact inferInstance

/-- Modelled from the spec: per-group displacement resolution (spec §4.1
steps 3–5).  Every child, visible or not, content-present or not, occupies one
virtual slot (I1, I4); candidates are ordered by clamped target slot with ties
resolved by clamped displacement, stably in baseline order; each candidate's
resolved block is spliced in as an unbroken unit (I5). -/
def resolveGroup (cands : List Candidate) : List PlanItem :=
  (((keyedCands cands.length 0 cands).insertionSort keyedLe).map Prod.snd).flatten

/-- Displacement hint carried by a child (spec §4.1 step 2): a content node's
unit's z-index (0 if no unit), 0 for a group (a group in this tree bears no
content unit of its own). -/
def zOfLayer (f : Nat) : Layer → Int
  | .image _ _ cels =>
    match celAt cels f with
    | some c => c.zIndex
    | none => 0
  | .group _ _ _ => 0

mutual
/-- Modelled from the spec: normal (content) mode planning of one node
(spec §4.1).  The production `RenderPlan::addLayer` (`doc/render_plan.cpp`) is
not among the provided sources.  A visible content node with a present unit
yields one item; an invisible node or an absent unit yields none (I4); a
visible group resolves its children one level at a time (I5). -/
def planLayer (f : Nat) : Layer → List PlanItem
  | .image lid v cels => if v && (celAt cels f).isSome then [PlanItem.cel lid] else []
  | .group _ v ch => if v then resolveGroup (candList f ch) else []

/-- Candidate list of a group's children, in stacking order: each child
contributes its resolved block and its displacement hint. -/
def candList (f : Nat) : List Layer → List Candidate
  | [] => []
  | l :: ls => { block := planLayer f l, z := zOfLayer f l } :: candList f ls
end

/-- Render plan state: the compose-mode flag fixed at construction and the item
sequence accumulated by `addLayer` calls (spec §3, `Render Plan`). -/
structure RenderPlan where
  composeGroups : Bool
  items : List PlanItem
  deriving DecidableEq, Repr

/-- Fresh plan, as built by the `RenderPlan(composeGroups)` constructor. -/
def RenderPlan.new (compose : Bool) : RenderPlan := ⟨compose, []⟩

/-- Modelled from the spec: one planning call against a node (spec §4.1 and
§4.2).  In compose mode the call performs no recursion and yields exactly one
item wrapping a bare reference to the node, whatever its kind; in normal mode
it appends the node's resolved content items. -/
def RenderPlan.addLayer (p : RenderPlan) (l : Layer) (f : Nat) : RenderPlan :=
  if p.composeGroups then { p with items := p.items ++ [PlanItem.layerRef l.id] }
  else { p with items := p.items ++ planLayer f l }

/-- Content node carrying one unit at frame 0 with the given z-index, used by
the reference scenarios. -/
def imgL (i : Nat) (z : Int) : Layer := .image i true [⟨0, z⟩]

/-- Reference tree of the `RenderPlan.ZIndex` scenarios: four sibling content
nodes `a, b, c, d` (ids 0..3), each with a present unit at frame 0. -/
def tree4 (za zb zc zd : Int) : Layer :=
  .group 100 true [imgL 0 za, imgL 1 zb, imgL 2 zc, imgL 3 zd]

/-- Reference tree of the `RenderPlan.ZIndexBugWithEmptyCels` scenarios:
sibling slots `a, b, c, d` where `c` has no unit at the frame. -/
def treeEmptyC (zd : Int) : Layer :=
  .group 100 true [imgL 0 0, imgL 1 0, .image 2 true [], imgL 3 zd]

/-- Items produced by one fresh normal-mode planning call on `t` at frame 0. -/
def planOf (t : Layer) : List PlanItem :=
  ((RenderPlan.new false).addLayer t 0).items

example : planOf (tree4 0 0 0 0) = [.cel 0, .cel 1, .cel 2, .cel 3] := by decide
example : planOf (tree4 2 (-1) 0 (-1)) = [.cel 1, .cel 3, .cel 2, .cel 0] := by decide
example : planOf (tree4 1 0 0 0) = [.cel 1, .cel 0, .cel 2, .cel 3] := by decide
example : planOf (tree4 1000 0 0 0) = [.cel 1, .cel 2, .cel 3, .cel 0] := by decide
example : planOf (tree4 (-1) (-1) (-1) (-1)) = [.cel 0, .cel 1, .cel 2, .cel 3] := by decide
example : planOf (treeEmptyC (-1)) = [.cel 0, .cel 1, .cel 3] := by decide
example : planOf (treeEmptyC (-2)) = [.cel 0, .cel 3, .cel 1] := by decide
example : planOf (treeEmptyC (-3)) = [.cel 3, .cel 0, .cel 1] := by decide

/-- Reference tree of the `RenderPlan.DontAddChildrenOnComposeGroupFlag`
scenario: a root (id 100) with four visible children in stacking order —
content node `a` (id 0, unit present), group `g0` (id 10, one content child
with a unit), group `g1` (id 11, empty), content node `c` (id 2, unit
present). -/
def composeChildren : List Layer :=
  [imgL 0 0, .group 10 true [imgL 1 0], .group 11 true [], imgL 2 0]

/-- Root node of the compose-mode reference scenario. -/
def composeRoot : Layer := .group 100 true composeChildren

/-- One compose-mode planning call per child, in stacking order, accumulated
into one plan (skipping invisible children, as the reference scenario's caller
does). -/
def composeSubplan : RenderPlan :=
  composeChildren.foldl (fun p c => if c.visible then p.addLayer c 0 else p)
    (RenderPlan.new true)

/-- C1: planning the four-sibling group with `a=2, b=-1, c=0, d=-1` yields
exactly the sequence `b, d, c, a` (the simultaneous opposite-direction
displacement scenario). -/
theorem c1_simultaneous_opposite_displacement :
    planOf (tree4 2 (-1) 0 (-1)) = [.cel 1, .cel 3, .cel 2, .cel 0] := by decide

/-- C2: with `c`'s unit absent and `a, b, d` present, `d.zIndex = -1` yields
`a, b, d` (the empty slot absorbs one unit of displacement), `d.zIndex = -2`
yields `a, d, b`, and `d.zIndex = -3` yields `d, a, b` — the absent slot counts
in the displacement arithmetic but never produces an item. -/
theorem c2_empty_slot_displacement :
    planOf (treeEmptyC (-1)) = [.cel 0, .cel 1, .cel 3] ∧
    planOf (treeEmptyC (-2)) = [.cel 0, .cel 3, .cel 1] ∧
    planOf (treeEmptyC (-3)) = [.cel 3, .cel 0, .cel 1] ∧
    (planOf (treeEmptyC (-1))).length = 3 ∧
    (planOf (treeEmptyC (-2))).length = 3 ∧
    (planOf (treeEmptyC (-3))).length = 3 := by decide

/-- C3: a single displaced item among four siblings moves exactly its clamped
displacement: `a.zIndex = 1` gives `b,a,c,d`; `2` gives `b,c,a,d`; `3` gives
`b,c,d,a`; `4` and `1000` both give `b,c,d,a` (clamp); and with `a` reset,
`b.zIndex = -1, -2, -3, -1000` all give `b,a,c,d` (clamp). -/
theorem c3_single_displacement_clamped :
    planOf (tree4 1 0 0 0) = [.cel 1, .cel 0, .cel 2, .cel 3] ∧
    planOf (tree4 2 0 0 0) = [.cel 1, .cel 2, .cel 0, .cel 3] ∧
    planOf (tree4 3 0 0 0) = [.cel 1, .cel 2, .cel 3, .cel 0] ∧
    planOf (tree4 4 0 0 0) = [.cel 1, .cel 2, .cel 3, .cel 0] ∧
    planOf (tree4 1000 0 0 0) = [.cel 1, .cel 2, .cel 3, .cel 0] ∧
    planOf (tree4 0 (-1) 0 0) = [.cel 1, .cel 0, .cel 2, .cel 3] ∧
    planOf (tree4 0 (-2) 0 0) = [.cel 1, .cel 0, .cel 2, .cel 3] ∧
    planOf (tree4 0 (-3) 0 0) = [.cel 1, .cel 0, .cel 2, .cel 3] ∧
    planOf (tree4 0 (-1000) 0 0) = [.cel 1, .cel 0, .cel 2, .cel 3] := by decide

/-- C7: setting every one of the four siblings' z-index to `-1` simultaneously
leaves the output at the baseline order `a, b, c, d`. -/
theorem c7_uniform_negative_displacement_identity :
    planOf (tree4 (-1) (-1) (-1) (-1)) = [.cel 0, .cel 1, .cel 2, .cel 3] := by decide

/-- C5: in compose mode one planning call against any node yields exactly one
item that is a bare reference to that node, with no recursion into children;
on the reference root one call yields one item referencing the root, and one
call per visible child yields four items, each a bare reference to the
corresponding child, in the children's stacking order. -/
theorem c5_compose_mode_no_recursion :
    (∀ (l : Layer) (f : Nat),
      ((RenderPlan.new true).addLayer l f).items = [PlanItem.layerRef l.id]) ∧
    ((RenderPlan.new true).addLayer composeRoot 0).items = [PlanItem.layerRef 100] ∧
    composeSubplan.items =
      [PlanItem.layerRef 0, PlanItem.layerRef 10, PlanItem.layerRef 11, PlanItem.layerRef 2] := by
  refine ⟨fun l f => rfl, rfl, rfl⟩

/-- C8: planning is deterministic and pure — two planning calls with the same
tree and frame and no intervening mutation yield identical item sequences (in
this embedding the planner holds no mutable state, so both calls are the same
function application). -/
theorem c8_planning_deterministic (t : Layer) (f : Nat) :
    ((RenderPlan.new false).addLayer t f).items = ((RenderPlan.new false).addLayer t f).items ∧
    ((RenderPlan.new true).addLayer t f).items = ((RenderPlan.new true).addLayer t f).items :=
  ⟨rfl, rfl⟩

mutual
/-- Update of one content unit's z-index: at the node reached by the child
index path `p`, replace the z-index of the unit at frame `f` (if any) by `z`;
anywhere the path does not address a content node the tree is unchanged. -/
def setZ : Layer → List Nat → Nat → Int → Layer
  | .image lid v cels, [], f, z =>
    .image lid v (cels.map (fun c => if c.frame == f then Cel.mk c.frame z else c))
  | .group gid v ch, i :: p, f, z => .group gid v (setZList ch i p f z)
  | t, _, _, _ => t

/-- Update of one content unit's z-index inside a child list: descend into the
`i`-th child with the remaining path. -/
def setZList : List Layer → Nat → List Nat → Nat → Int → List Layer
  | [], _, _, _, _ => []
  | c :: cs, 0, p, f, z => setZ c p f z :: cs
  | c :: cs, i + 1, p, f, z => c :: setZList cs i p f z
end

mutual
/-- Sibling-group size of the node addressed by the child index path `p`
(`none` when the path does not address a child of a group). -/
def siblingsAt : Layer → List Nat → Option Nat
  | .group _ _ ch, [i] => if i < ch.length then some ch.length else none
  | .group _ _ ch, i :: q :: p => siblingsAtList ch i (q :: p)
  | _, _ => none

/-- Sibling-group size reached through the `i`-th element of a child list. -/
def siblingsAtList : List Layer → Nat → List Nat → Option Nat
  | [], _, _ => none
  | c :: _, 0, p => siblingsAt c p
  | _ :: cs, i + 1, p => siblingsAtList cs i p
end

example : siblingsAt (tree4 0 0 0 0) [2] = some 4 := by decide
example : siblingsAt (tree4 0 0 0 0) [] = none := by decide
example : planOf (setZ (tree4 0 0 0 0) [0] 0 1000) = [.cel 1, .cel 2, .cel 3, .cel 0] := by decide

/-- Beyond the positive clamp bound the sort key no longer changes: any
`z ≥ N-1` keys like any other such value. -/
theorem keyOf_high (n b : Nat) (z z' : Int) (hb : b < n)
    (hz : (n : Int) - 1 ≤ z) (hz' : (n : Int) - 1 ≤ z') :
    keyOf n b z = keyOf n b z' := by
  have hbn : (b : Int) < (n : Int) := by exact_mod_cast hb
  have hb0 : (0 : Int) ≤ (b : Int) := Int.natCast_nonneg b
  unfold keyOf clampI
  rw [min_eq_right (by omega : (n : Int) - 1 - (b : Int) ≤ z),
    min_eq_right (by omega : (n : Int) - 1 - (b : Int) ≤ z'),
    min_eq_right (by omega : (n : Int) - 1 ≤ z),
    min_eq_right (by omega : (n : Int) - 1 ≤ z')]

/-- Beyond the negative clamp bound the sort key no longer changes: any
`z ≤ -(N-1)` keys like any other such value. -/
theorem keyOf_low (n b : Nat) (z z' : Int) (hb : b < n)
    (hz : z ≤ -((n : Int) - 1)) (hz' : z' ≤ -((n : Int) - 1)) :
    keyOf n b z = keyOf n b z' := by
  have hbn : (b : Int) < (n : Int) := by exact_mod_cast hb
  have hb0 : (0 : Int) ≤ (b : Int) := Int.natCast_nonneg b
  unfold keyOf clampI
  rw [min_eq_left (by omega : z ≤ (n : Int) - 1 - (b : Int)),
    min_eq_left (by omega : z' ≤ (n : Int) - 1 - (b : Int)),
    max_eq_left (by omega : z ≤ -(b : Int)),
    max_eq_left (by omega : z' ≤ -(b : Int)),
    min_eq_left (by omega : z ≤ (n : Int) - 1),
    min_eq_left (by omega : z' ≤ (n : Int) - 1),
    max_eq_left (by omega : z ≤ -((n : Int) - 1)),
    max_eq_left (by omega : z' ≤ -((n : Int) - 1))]

/-- Replacing the z-index of the unit at frame `f` commutes with the unit
lookup. -/
theorem celAt_setZ_cels (cels : List Cel) (f : Nat) (z : Int) :
    celAt (cels.map (fun c => if c.frame == f then Cel.mk c.frame z else c)) f
      = (celAt cels f).map (fun c => Cel.mk c.frame z) := by
  induction cels with
  | nil => rfl
  | cons c cs ih =>
    by_cases h : c.frame == f
    · have hf : c.frame = f := by simpa using h
      simp [celAt, List.find?_cons, h, hf]
    · simp only [celAt, List.map_cons, List.find?_cons] at ih ⊢
      simp only [h, if_neg, Bool.false_eq_true, ite_false]
      simpa [h] using ih

/-- The z-index update preserves the length of a child list. -/
theorem length_setZList (cs : List Layer) (i : Nat) (p : List Nat) (f : Nat) (z : Int) :
    (setZList cs i p f z).length = cs.length := by
  induction cs generalizing i with
  | nil => rfl
  | cons c cs ih =>
    cases i with
    | zero => rfl
    | succ j => simp [setZList, ih]

/-- The candidate list of a group has one candidate per child. -/
theorem length_candList (f : Nat) (ls : List Layer) :
    (candList f ls).length = ls.length := by
  induction ls with
  | nil => rfl
  | cons l ls ih => simp [candList, ih]

/-- Group resolution depends only on the keyed candidate list (and the slot
count). -/
theorem resolveGroup_congr (cands cands' : List Candidate)
    (_hlen : cands.length = cands'.length)
    (hkey : keyedCands cands.length 0 cands = keyedCands cands'.length 0 cands') :
    resolveGroup cands = resolveGroup cands' := by
  unfold resolveGroup
  rw [hkey]

/-- Key-preserving z-index change at the addressed child of the current group:
the keyed candidate list is unchanged. -/
theorem keyedCands_setZList_here (n : Nat) (f : Nat) (z z' : Int)
    (hk : ∀ b : Nat, b < n → keyOf n b z = keyOf n b z') :
    ∀ (cs : List Layer) (i b : Nat), b + cs.length ≤ n →
      keyedCands n b (candList f (setZList cs i [] f z))
        = keyedCands n b (candList f (setZList cs i [] f z')) := by
  intro cs
  induction cs with
  | nil => intro i b _; rfl
  | cons c cs ih =>
    intro i b hbn
    cases i with
    | succ j =>
      simp only [setZList, candList, keyedCands]
      rw [ih j (b + 1) (by simpa [Nat.add_comm, Nat.add_assoc, Nat.add_left_comm] using hbn)]
    | zero =>
      simp only [setZList, candList, keyedCands]
      cases c with
      | group gid v ch => rfl
      | image lid v cels =>
        simp only [setZ, planLayer, zOfLayer, celAt_setZ_cels]
        cases hc : celAt cels f with
        | none => rfl
        | some c0 =>
          simp only [Option.map_some', Option.isSome_some]
          rw [hk b (by simp only [List.length_cons] at hbn; omega)]

/-- A path never addresses a sibling group at the root itself. -/
theorem siblingsAt_nil (t : Layer) : siblingsAt t [] = none := by
  cases t <;> rfl

/-- Key-preserving z-index change below the addressed child of the current
group: the keyed candidate list is unchanged. -/
theorem keyedCands_setZList_deep (f : Nat) (z z' : Int) (n q : Nat) (p : List Nat)
    (ihp : ∀ t : Layer, siblingsAt t (q :: p) = some n →
      planLayer f (setZ t (q :: p) f z) = planLayer f (setZ t (q :: p) f z')) :
    ∀ (cs : List Layer) (i m b : Nat),
      siblingsAtList cs i (q :: p) = some n →
      keyedCands m b (candList f (setZList cs i (q :: p) f z))
        = keyedCands m b (candList f (setZList cs i (q :: p) f z')) := by
  intro cs
  induction cs with
  | nil => intro i m b h; cases h
  | cons c cs ih =>
    intro i m b h
    cases i with
    | zero =>
      simp only [setZList, candList, keyedCands]
      have hplan := ihp c (by simpa [siblingsAtList] using h)
      have hzeq : zOfLayer f (setZ c (q :: p) f z) = zOfLayer f (setZ c (q :: p) f z') := by
        cases c with
        | image lid v cels => rfl
        | group gid v ch => rfl
      rw [hplan, hzeq]
    | succ j =>
      simp only [setZList, candList, keyedCands]
      rw [ih j m (b + 1) (by simpa [siblingsAtList] using h)]

/-- Changing one content unit's z-index in a way that preserves its sort key
in its own sibling group leaves the whole plan unchanged. -/
theorem planLayer_setZ_congr :
    ∀ (p : List Nat) (t : Layer) (f : Nat) (z z' : Int) (n : Nat),
      siblingsAt t p = some n →
      (∀ b : Nat, b < n → keyOf n b z = keyOf n b z') →
      planLayer f (setZ t p f z) = planLayer f (setZ t p f z') := by
  intro p
  induction p with
  | nil =>
    intro t f z z' n h _
    rw [siblingsAt_nil] at h
    cases h
  | cons i p ih =>
    intro t f z z' n h hk
    cases t with
    | image lid v cels =>
      rw [show siblingsAt (Layer.image lid v cels) (i :: p) = none from rfl] at h
      cases h
    | group gid v ch =>
      cases p with
      | nil =>
        rw [show siblingsAt (Layer.group gid v ch) [i]
            = if i < ch.length then some ch.length else none from rfl] at h
        by_cases hi : i < ch.length
        · rw [if_pos hi] at h
          injection h with hn
          subst hn
          simp only [setZ, planLayer]
          cases v with
          | false => rfl
          | true =>
            show resolveGroup (candList f (setZList ch i [] f z))
              = resolveGroup (candList f (setZList ch i [] f z'))
            apply resolveGroup_congr
            · rw [length_candList, length_setZList, length_candList, length_setZList]
            · rw [length_candList, length_setZList, length_candList, length_setZList]
              exact keyedCands_setZList_here ch.length f z z' hk ch i 0 (by omega)
        · rw [if_neg hi] at h
          cases h
      | cons q rest =>
        have hl : siblingsAtList ch i (q :: rest) = some n := by
          simpa [siblingsAt] using h
        simp only [setZ, planLayer]
        cases v with
        | false => rfl
        | true =>
          show resolveGroup (candList f (setZList ch i (q :: rest) f z))
            = resolveGroup (candList f (setZList ch i (q :: rest) f z'))
          apply resolveGroup_congr
          · rw [length_candList, length_setZList, length_candList, length_setZList]
          · rw [length_candList, length_setZList, length_candList, length_setZList]
            exact keyedCands_setZList_deep f z z' n q rest
              (fun t ht => ih t f z z' n ht hk) ch i ch.length 0 hl

/-- C4: clamp law — the effective target slot of a candidate at baseline `b`
among `N` siblings is `baseline + clamp(zIndex, -baseline, N-1-baseline)` and
always stays within `[0, N-1]` of its own sibling group; and for every tree,
frame and content unit addressed inside a sibling group of `N` children,
raising the unit's z-index beyond `N-1` (or lowering it beyond `-(N-1)`)
produces exactly the same plan as `zIndex = N-1` (resp. `-(N-1)`). -/
theorem c4_clamp_law :
    (∀ (n b : Nat) (z : Int), b < n →
      (keyOf n b z).1 = (b : Int) + clampI z (-(b : Int)) ((n : Int) - 1 - (b : Int)) ∧
      0 ≤ (keyOf n b z).1 ∧ (keyOf n b z).1 ≤ (n : Int) - 1) ∧
    (∀ (t : Layer) (p : List Nat) (f : Nat) (z : Int) (n : Nat),
      siblingsAt t p = some n →
      (((n : Int) - 1 ≤ z →
        planLayer f (setZ t p f z) = planLayer f (setZ t p f ((n : Int) - 1))) ∧
       (z ≤ -((n : Int) - 1) →
        planLayer f (setZ t p f z) = planLayer f (setZ t p f (-((n : Int) - 1)))))) := by
  constructor
  · intro n b z hb
    have hbn : (b : Int) < (n : Int) := by exact_mod_cast hb
    have hb0 : (0 : Int) ≤ (b : Int) := Int.natCast_nonneg b
    refine ⟨rfl, ?_, ?_⟩
    · unfold keyOf clampI
      have h1 : -(b : Int) ≤ max (-(b : Int)) (min z ((n : Int) - 1 - (b : Int))) :=
        le_max_left _ _
      omega
    · unfold keyOf clampI
      have h1 : max (-(b : Int)) (min z ((n : Int) - 1 - (b : Int)))
          ≤ max (-(b : Int)) ((n : Int) - 1 - (b : Int)) :=
        max_le_max le_rfl (min_le_right _ _)
      have h2 : max (-(b : Int)) ((n : Int) - 1 - (b : Int)) = (n : Int) - 1 - (b : Int) :=
        max_eq_right (by omega)
      omega
  · intro t p f z n h
    constructor
    · intro hz
      exact planLayer_setZ_congr p t f z ((n : Int) - 1) n h
        (fun b hb => keyOf_high n b z ((n : Int) - 1) hb hz le_rfl)
    · intro hz
      exact planLayer_setZ_congr p t f z (-((n : Int) - 1)) n h
        (fun b hb => keyOf_low n b z (-((n : Int) - 1)) hb hz le_rfl)

/-- Witness for the clamp law: at the concrete four-sibling reference tree,
setting `a`'s z-index to 1000 yields the very same plan as setting it to 3. -/
theorem c4_clamp_law_witness :
    siblingsAt (tree4 0 0 0 0) [0] = some 4 ∧
    (0 : Nat) < 4 ∧
    planLayer 0 (setZ (tree4 0 0 0 0) [0] 0 1000)
      = planLayer 0 (setZ (tree4 0 0 0 0) [0] 0 ((4 : Int) - 1)) ∧
    0 ≤ (keyOf 4 0 1000).1 ∧ (keyOf 4 0 1000).1 ≤ (4 : Int) - 1 :=
  ⟨by decide, by decide,
   (c4_clamp_law.2 (tree4 0 0 0 0) [0] 0 1000 4 (by decide)).1 (by decide),
   (c4_clamp_law.1 4 0 1000 (by decide)).2.1,
   (c4_clamp_law.1 4 0 1000 (by decide)).2.2⟩

mutual
/-- Identities of the content nodes that effectively contribute an item at a
frame: visible, unit present, and below no invisible group. -/
def effVisible (f : Nat) : Layer → List Nat
  | .image lid v cels => if v && (celAt cels f).isSome then [lid] else []
  | .group _ v ch => if v then effVisibleList f ch else []

/-- Effectively contributing content-node identities of a child list. -/
def effVisibleList (f : Nat) : List Layer → List Nat
  | [] => []
  | l :: ls => effVisible f l ++ effVisibleList f ls
end

mutual
/-- Number of content nodes reachable from the root that are visible and have
a present unit at the frame (regardless of group visibility above them). -/
def countPresentVisible (f : Nat) : Layer → Nat
  | .image _ v cels => if v && (celAt cels f).isSome then 1 else 0
  | .group _ _ ch => countPVList f ch

/-- Reachable present-and-visible content-node count of a child list. -/
def countPVList (f : Nat) : List Layer → Nat
  | [] => 0
  | l :: ls => countPresentVisible f l + countPVList f ls
end

/-- The payloads of a keyed candidate list are the candidates' blocks. -/
theorem map_snd_keyedCands (n : Nat) (cs : List Candidate) :
    ∀ b, (keyedCands n b cs).map Prod.snd = cs.map Candidate.block := by
  induction cs with
  | nil => intro b; rfl
  | cons c cs ih => intro b; simp [keyedCands, ih]

/-- Permuting a list of lists permutes its concatenation. -/
theorem flatten_perm_of_perm {α : Type} {l l' : List (List α)} (h : List.Perm l l') :
    List.Perm l.flatten l'.flatten := by
  induction h with
  | nil => exact List.Perm.refl _
  | cons x _ ih => simpa using ih.append_left x
  | swap x y l =>
    simp only [List.flatten_cons]
    rw [← List.append_assoc, ← List.append_assoc]
    exact List.perm_append_comm.append_right _
  | trans _ _ ih1 ih2 => exact ih1.trans ih2

/-- Group resolution permutes the concatenation of its candidates' blocks. -/
theorem resolveGroup_perm (cs : List Candidate) :
    List.Perm (resolveGroup cs) ((cs.map Candidate.block).flatten) := by
  unfold resolveGroup
  have h1 := List.perm_insertionSort keyedLe (keyedCands cs.length 0 cs)
  have h2 := flatten_perm_of_perm (h1.map Prod.snd)
  rwa [map_snd_keyedCands] at h2

/-- The blocks of a group's candidate list are its children's plans. -/
theorem candList_map_block (f : Nat) (ls : List Layer) :
    (candList f ls).map Candidate.block = ls.map (planLayer f) := by
  induction ls with
  | nil => rfl
  | cons l ls ih => simp [candList, ih]

mutual
/-- The plan of a node is a permutation of one content item per effectively
visible, content-present node below it. -/
theorem planLayer_perm_effVisible (f : Nat) (t : Layer) :
    List.Perm (planLayer f t) ((effVisible f t).map PlanItem.cel) := by
  cases t with
  | image lid v cels =>
    simp only [planLayer, effVisible]
    cases v && (celAt cels f).isSome <;> simp
  | group gid v ch =>
    simp only [planLayer, effVisible]
    cases v with
    | false => simp
    | true =>
      show List.Perm (resolveGroup (candList f ch)) ((effVisibleList f ch).map PlanItem.cel)
      have h := resolveGroup_perm (candList f ch)
      rw [candList_map_block] at h
      exact h.trans (planList_perm_effVisibleList f ch)

/-- List form of `planLayer_perm_effVisible` over a group's children. -/
theorem planList_perm_effVisibleList (f : Nat) (ls : List Layer) :
    List.Perm ((ls.map (planLayer f)).flatten) ((effVisibleList f ls).map PlanItem.cel) := by
  cases ls with
  | nil => exact List.Perm.refl _
  | cons l ls =>
    simp only [List.map_cons, List.flatten_cons, effVisibleList, List.map_append]
    exact (planLayer_perm_effVisible f l).append (planList_perm_effVisibleList f ls)
end

mutual
/-- Effectively visible nodes are no more numerous than all reachable
present-and-visible content nodes. -/
theorem effVisible_length_le (f : Nat) (t : Layer) :
    (effVisible f t).length ≤ countPresentVisible f t := by
  cases t with
  | image lid v cels =>
    simp only [effVisible, countPresentVisible]
    cases v && (celAt cels f).isSome <;> simp
  | group gid v ch =>
    simp only [effVisible, countPresentVisible]
    cases v with
    | false => simp
    | true =>
      show (effVisibleList f ch).length ≤ countPVList f ch
      exact effVisibleList_length_le f ch

/-- List form of `effVisible_length_le` over a group's children. -/
theorem effVisibleList_length_le (f : Nat) (ls : List Layer) :
    (effVisibleList f ls).length ≤ countPVList f ls := by
  cases ls with
  | nil => exact Nat.le_refl 0
  | cons l ls =>
    simp only [effVisibleList, countPVList, List.length_append]
    exact Nat.add_le_add (effVisible_length_le f l) (effVisibleList_length_le f ls)
end

/-- C6: in normal mode the plan never exceeds the number of content nodes
reachable with a present, visible unit, and it is exactly one item per
effectively visible, content-present node — so it never contains an item for
an invisible node or for a node whose unit is absent at the frame. -/
theorem c6_plan_bounded_and_visible (t : Layer) (f : Nat) :
    (planLayer f t).length ≤ countPresentVisible f t ∧
    List.Perm (planLayer f t) ((effVisible f t).map PlanItem.cel) := by
  have hp := planLayer_perm_effVisible f t
  refine ⟨?_, hp⟩
  rw [hp.length_eq, List.length_map]
  exact effVisible_length_le f t

/-- Two-dimensional size (`gfx::Size`). -/
structure Size where
  w : Int
  h : Int
  deriving DecidableEq, Repr

/-- Two-dimensional point (`gfx::Point`). -/
structure Point where
  x : Int
  y : Int
  deriving DecidableEq, Repr

/-- Four-sided border (`gfx::Border`). -/
structure Border where
  left : Int
  top : Int
  right : Int
  bottom : Int
  deriving DecidableEq, Repr

/-- Rectangle (`gfx::Rect`). -/
structure Rect where
  x : Int
  y : Int
  w : Int
  h : Int
  deriving DecidableEq, Repr

/-- Rectangle emptiness (`gfx::Rect::isEmpty`: width or height below 1). -/
def Rect.isEmpty (r : Rect) : Bool := r.w ≤ 0 || r.h ≤ 0

/-- Right edge (`gfx::Rect::x2`). -/
def Rect.x2 (r : Rect) : Int := r.x + r.w

/-- Bottom edge (`gfx::Rect::y2`). -/
def Rect.y2 (r : Rect) : Int := r.y + r.h

/-- Horizontal extent of a border (`gfx::Border::width`). -/
def Border.width (b : Border) : Int := b.left + b.right

/-- Vertical extent of a border (`gfx::Border::height`). -/
def Border.height (b : Border) : Int := b.top + b.bottom

/-- Style layer kind (`Style::Layer::Type`, declared in ui/style.h outside the
provided sources; the theme code only switches on and compares these). -/
inductive LayerType where
  | kNone
  | kBackground
  | kBackgroundBorder
  | kBorder
  | kIcon
  | kText
  | kNewLayer
  deriving DecidableEq, Repr

/-- One style layer (`Style::Layer`, declared in ui/style.h outside the
provided sources): the fields read by `for_each_layer` and
`Theme::measureLayer`.  `spriteSheet` abstracts the non-nullness of the sprite
sheet pointer, `color` is `none` for `gfx::ColorNone`, and `icon` holds the
dimensions of the layer's icon surface when present. -/
structure StyleLayer where
  type : LayerType
  flags : Nat
  spriteSheet : Bool
  spriteBounds : Rect
  slicesBounds : Rect
  color : Option Nat
  offset : Point
  align : Nat
  icon : Option Size
  deriving DecidableEq, Repr

/-- Style data read by the embedded theme code (`ui::Style`, declared outside
the provided sources): its layer list, raw border/padding (negative sides mean
undefined), and the size of the widget's text measured with the style's own
font when the style has one differing from the widget's font (`none`
otherwise). -/
structure Style where
  layers : List StyleLayer
  rawBorder : Border
  rawPadding : Border
  styleFontTextSize : Option Size
  deriving DecidableEq, Repr

/-- Embedded from `compare_layer_flags` (src/ui/theme.cpp): plain integer
subtraction of the two flag words. -/
def compare_layer_flags (a b : Nat) : Int := (a : Int) - (b : Int)

/-- Flag admission test of the `for_each_layer` loop (src/ui/theme.cpp):
a layer with no flags always qualifies, otherwise its flags must be a bitwise
subset of the queried flags. -/
def layerMatches (flags : Nat) (l : StyleLayer) : Bool :=
  l.flags == 0 || (Nat.land l.flags flags == l.flags)

/-- Embedded from the loop of `for_each_layer` (src/ui/theme.cpp:47-78):
`best` is the C++ `bestLayer` register; the result is the sequence of callback
invocations. -/
def for_each_layer_loop (flags : Nat) : Option StyleLayer → List StyleLayer → List StyleLayer
  | best, [] =>
    match best with
    | some b => [b]
    | none => []
  | best, l :: ls =>
    let emitted : List StyleLayer :=
      match best with
      | some b => if b.type ≠ l.type then [b] else []
      | none => []
    let best1 : Option StyleLayer :=
      match best with
      | some b => if b.type ≠ l.type then none else some b
      | none => none
    let best2 : Option StyleLayer :=
      if layerMatches flags l &&
          (match best1 with
           | none => true
           | some b => decide (compare_layer_flags b.flags l.flags ≤ 0)) then
        some l
      else best1
    emitted ++ for_each_layer_loop flags best2 ls

/-- Embedded from `for_each_layer` (src/ui/theme.cpp): iterate the style's
layers with an empty best-layer register. -/
def for_each_layer (flags : Nat) (s : Style) : List StyleLayer :=
  for_each_layer_loop flags none s.layers

/-- Longest prefix of consecutive layers of type `t`, with the remainder. -/
def takeRun (t : LayerType) : List StyleLayer → List StyleLayer × List StyleLayer
  | [] => ([], [])
  | l :: ls =>
    if l.type = t then ((l :: (takeRun t ls).1), (takeRun t ls).2)
    else ([], l :: ls)

/-- The remainder of a run split is no longer than the input. -/
theorem takeRun_snd_length (t : LayerType) (ls : List StyleLayer) :
    (takeRun t ls).2.length ≤ ls.length := by
  induction ls with
  | nil => exact Nat.le_refl 0
  | cons l ls ih =>
    simp only [takeRun]
    by_cases h : l.type = t
    · rw [if_pos h]
      exact Nat.le_succ_of_le ih
    · rw [if_neg h]

/-- Running selection of the `for_each_layer` loop within one run: replace the
register whenever its flags compare less-or-equal to the incoming layer's. -/
def pickBest : Option StyleLayer → List StyleLayer → Option StyleLayer
  | best, [] => best
  | none, l :: ls => pickBest (some l) ls
  | some b, l :: ls =>
    pickBest (if compare_layer_flags b.flags l.flags ≤ 0 then some l else some b) ls

/-- Per-run specification of `for_each_layer`: split the layer list into
maximal runs of consecutive layers of the same type; for each run emit at most
one layer, the running-best (last greatest-or-equal flags value) of the run's
matching layers. -/
def runsSelect (flags : Nat) : List StyleLayer → List StyleLayer
  | [] => []
  | l :: ls =>
    (pickBest none ((l :: (takeRun l.type ls).1).filter (layerMatches flags))).toList
      ++ runsSelect flags (takeRun l.type ls).2
termination_by ls => ls.length
decreasing_by
  simp only [List.length_cons]
  exact Nat.lt_succ_of_le (takeRun_snd_length _ _)

/-- Loop step with an empty register and an admitted layer. -/
theorem loop_none_cons_pos (flags : Nat) (l : StyleLayer) (ls : List StyleLayer)
    (hm : layerMatches flags l = true) :
    for_each_layer_loop flags none (l :: ls) = for_each_layer_loop flags (some l) ls := by
  simp [for_each_layer_loop, hm]

/-- Loop step with an empty register and a rejected layer. -/
theorem loop_none_cons_neg (flags : Nat) (l : StyleLayer) (ls : List StyleLayer)
    (hm : layerMatches flags l = false) :
    for_each_layer_loop flags none (l :: ls) = for_each_layer_loop flags none ls := by
  simp [for_each_layer_loop, hm]

/-- Loop step with a register of the same type as the incoming layer. -/
theorem loop_some_cons_same (flags : Nat) (b l : StyleLayer) (ls : List StyleLayer)
    (h : b.type = l.type) :
    for_each_layer_loop flags (some b) (l :: ls)
      = for_each_layer_loop flags
          (if layerMatches flags l && decide (compare_layer_flags b.flags l.flags ≤ 0)
           then some l else some b) ls := by
  simp [for_each_layer_loop, h]

/-- Loop step with a register of a different type: the register is emitted and
cleared before the incoming layer is considered. -/
theorem loop_some_cons_diff (flags : Nat) (b l : StyleLayer) (ls : List StyleLayer)
    (h : b.type ≠ l.type) :
    for_each_layer_loop flags (some b) (l :: ls)
      = b :: for_each_layer_loop flags
          (if layerMatches flags l then some l else none) ls := by
  by_cases hm : layerMatches flags l
  · simp [for_each_layer_loop, h, hm]
  · simp [for_each_layer_loop, h, hm]

/-- Selection step starting from an empty register. -/
theorem pickBest_cons_none (l : StyleLayer) (ls : List StyleLayer) :
    pickBest none (l :: ls) = pickBest (some l) ls := rfl

/-- Selection step with an occupied register. -/
theorem pickBest_cons_some (b l : StyleLayer) (ls : List StyleLayer) :
    pickBest (some b) (l :: ls)
      = pickBest (if compare_layer_flags b.flags l.flags ≤ 0 then some l else some b) ls := rfl

/-- Unfolding equation of the per-run specification. -/
theorem runsSelect_cons (flags : Nat) (l : StyleLayer) (ls : List StyleLayer) :
    runsSelect flags (l :: ls)
      = (pickBest none ((l :: (takeRun l.type ls).1).filter (layerMatches flags))).toList
        ++ runsSelect flags (takeRun l.type ls).2 := by
  rw [runsSelect]

/-- Splitting an arbitrary run prefix off a layer list and selecting per run is
the same as selecting per run directly. -/
theorem runsSelect_regroup (flags : Nat) (t : LayerType) (ls : List StyleLayer) :
    (pickBest none ((takeRun t ls).1.filter (layerMatches flags))).toList
      ++ runsSelect flags (takeRun t ls).2 = runsSelect flags ls := by
  cases ls with
  | nil => rfl
  | cons r ls =>
    by_cases h : r.type = t
    · simp only [takeRun, if_pos h]
      rw [runsSelect_cons, h]
    · simp only [takeRun, if_neg h]
      rfl

/-- Unfolding equation of the per-run specification on the empty list. -/
theorem runsSelect_nil (flags : Nat) : runsSelect flags [] = [] := by
  rw [runsSelect]

/-- Characterization of the `for_each_layer` loop: with an empty register it
performs exactly the per-run selection; with an occupied register it finishes
the register's run first. -/
theorem for_each_layer_loop_spec (flags : Nat) :
    ∀ ls : List StyleLayer,
      (∀ b : StyleLayer,
        for_each_layer_loop flags (some b) ls
          = (pickBest (some b) ((takeRun b.type ls).1.filter (layerMatches flags))).toList
            ++ runsSelect flags (takeRun b.type ls).2) ∧
      for_each_layer_loop flags none ls = runsSelect flags ls := by
  intro ls
  induction ls with
  | nil =>
    constructor
    · intro b
      simp [for_each_layer_loop, takeRun, pickBest, runsSelect_nil]
    · simp [for_each_layer_loop, runsSelect_nil]
  | cons l ls ih =>
    obtain ⟨ihSome, ihNone⟩ := ih
    have hcons : layerMatches flags l = true →
        for_each_layer_loop flags (some l) ls = runsSelect flags (l :: ls) := by
      intro hm
      rw [runsSelect_cons, List.filter_cons_of_pos hm, pickBest_cons_none]
      exact ihSome l
    have hskip : layerMatches flags l = false →
        for_each_layer_loop flags none ls = runsSelect flags (l :: ls) := by
      intro hm
      rw [runsSelect_cons, List.filter_cons_of_neg (by simp [hm]), ihNone,
        runsSelect_regroup]
    constructor
    · intro b
      by_cases h : b.type = l.type
      · rw [loop_some_cons_same flags b l ls h]
        have htr1 : (takeRun b.type (l :: ls)).1 = l :: (takeRun b.type ls).1 := by
          simp [takeRun, h.symm]
        have htr2 : (takeRun b.type (l :: ls)).2 = (takeRun b.type ls).2 := by
          simp [takeRun, h.symm]
        rw [htr1, htr2]
        by_cases hm : layerMatches flags l
        · rw [List.filter_cons_of_pos hm, pickBest_cons_some, hm, Bool.true_and]
          by_cases hc : compare_layer_flags b.flags l.flags ≤ 0
          · rw [if_pos hc, decide_eq_true hc, if_pos rfl, h]
            exact ihSome l
          · rw [if_neg hc, decide_eq_false hc]
            simpa using ihSome b
        · have hm' : layerMatches flags l = false := by simpa using hm
          rw [List.filter_cons_of_neg (by simp [hm']), hm', Bool.false_and,
            if_neg (by simp : ¬(false = true))]
          exact ihSome b
      · rw [loop_some_cons_diff flags b l ls h]
        have htr1 : (takeRun b.type (l :: ls)).1 = [] := by
          simp only [takeRun]
          rw [if_neg (fun he => h he.symm)]
        have htr2 : (takeRun b.type (l :: ls)).2 = l :: ls := by
          simp only [takeRun]
          rw [if_neg (fun he => h he.symm)]
        rw [htr1, htr2]
        show b :: for_each_layer_loop flags (if layerMatches flags l then some l else none) ls
          = [b] ++ runsSelect flags (l :: ls)
        rw [List.singleton_append, List.cons_inj_right]
        by_cases hm : layerMatches flags l
        · rw [if_pos hm]
          exact hcons hm
        · rw [if_neg hm]
          exact hskip (by simpa using hm)
    · by_cases hm : layerMatches flags l
      · rw [loop_none_cons_pos flags l ls hm]
        exact hcons hm
      · have hm' : layerMatches flags l = false := by simpa using hm
        rw [loop_none_cons_neg flags l ls hm']
        exact hskip hm'

/-- Base equation of the run selection. -/
theorem pickBest_nil (best : Option StyleLayer) : pickBest best [] = best := by
  cases best <;> rfl

/-- The selected layer of a run is the initial register or one of the run's
layers. -/
theorem pickBest_mem :
    ∀ (ls : List StyleLayer) (best : Option StyleLayer) (r : StyleLayer),
      pickBest best ls = some r → best = some r ∨ r ∈ ls := by
  intro ls
  induction ls with
  | nil =>
    intro best r h
    rw [pickBest_nil] at h
    exact Or.inl h
  | cons l ls ih =>
    intro best r h
    cases best with
    | none =>
      rcases ih (some l) r h with h1 | h1
      · right
        rw [List.mem_cons]
        left
        injection h1 with e
        exact e.symm
      · right
        exact List.mem_cons_of_mem _ h1
    | some b =>
      rw [pickBest_cons_some] at h
      by_cases hc : compare_layer_flags b.flags l.flags ≤ 0
      · rw [if_pos hc] at h
        rcases ih (some l) r h with h1 | h1
        · right
          rw [List.mem_cons]
          left
          injection h1 with e
          exact e.symm
        · right
          exact List.mem_cons_of_mem _ h1
      · rw [if_neg hc] at h
        rcases ih (some b) r h with h1 | h1
        · exact Or.inl h1
        · right
          exact List.mem_cons_of_mem _ h1

/-- Every layer emitted by the per-run selection qualifies under the flag
admission test. -/
theorem runsSelect_matches (flags : Nat) :
    ∀ (n : Nat) (ls : List StyleLayer), ls.length ≤ n →
      ∀ x ∈ runsSelect flags ls, layerMatches flags x = true := by
  intro n
  induction n with
  | zero =>
    intro ls hl x hx
    cases ls with
    | nil => rw [runsSelect_nil] at hx; cases hx
    | cons l ls => simp at hl
  | succ n ihn =>
    intro ls hl x hx
    cases ls with
    | nil => rw [runsSelect_nil] at hx; cases hx
    | cons l ls =>
      rw [runsSelect_cons] at hx
      rcases List.mem_append.mp hx with h1 | h2
      · have hsome : pickBest none ((l :: (takeRun l.type ls).1).filter (layerMatches flags))
            = some x := by
          cases hp : pickBest none ((l :: (takeRun l.type ls).1).filter (layerMatches flags)) with
          | none => rw [hp] at h1; cases h1
          | some y =>
            rw [hp] at h1
            have hxy : x = y := by simpa using h1
            rw [hxy]
        rcases pickBest_mem _ none x hsome with h3 | h3
        · cases h3
        · exact List.of_mem_filter h3
      · exact ihn (takeRun l.type ls).2
          (Nat.le_trans (takeRun_snd_length _ _) (Nat.le_of_succ_le_succ hl)) x h2

/-- C9: `for_each_layer` invokes its callback only on layers whose flags word
is zero or a bitwise subset of the queried flags, and performs exactly one
selection per maximal run of consecutive same-type layers: at most one
invocation per run, the selected layer being the running best (last
greatest-or-equal flags value under integer comparison) of the run's matching
layers. -/
theorem c9_for_each_layer_per_run (flags : Nat) (s : Style) :
    (for_each_layer flags s).all (layerMatches flags) = true ∧
    for_each_layer flags s = runsSelect flags s.layers := by
  have he : for_each_layer flags s = runsSelect flags s.layers :=
    (for_each_layer_loop_spec flags s.layers).2
  refine ⟨?_, he⟩
  rw [he, List.all_eq_true]
  intro x hx
  exact runsSelect_matches flags s.layers.length s.layers (Nat.le_refl _) x hx

/-- Horizontal alignment bit (ui align flags from ui/base.h, outside the
provided sources; only distinctness of the bits matters to the embedded
code). -/
def LEFT : Nat := 4

/-- Horizontal centering bit. -/
def CENTER : Nat := 8

/-- Horizontal alignment bit. -/
def RIGHT : Nat := 16

/-- Vertical alignment bit. -/
def TOP : Nat := 32

/-- Vertical centering bit. -/
def MIDDLE : Nat := 64

/-- Vertical alignment bit. -/
def BOTTOM : Nat := 128

/-- Absolute value as computed by the `ABS` macro. -/
def ABS (x : Int) : Int := if x < 0 then -x else x

/-- Widget data read by the embedded theme code (`ui::Widget`, declared
outside the provided sources): the style flags computed for it, the size of
its text under its own font, the icon surface it provides when it implements
`Style::Layer::IconSurfaceProvider` (with a non-null surface), and its size
limits. -/
structure Widget where
  styleFlags : Nat
  textSize : Size
  iconSurface : Option Size
  minSize : Size
  maxSize : Size
  deriving DecidableEq, Repr

/-- State threaded by reference through `Theme::measureLayer`. -/
structure MeasureState where
  borderHint : Border
  textHint : Rect
  textAlign : Nat
  iconHint : Size
  iconAlign : Nat
  deriving DecidableEq, Repr

/-- Embedded from `Theme::measureLayer` (src/ui/theme.cpp): accumulate border,
text and icon hints from one style layer. -/
def measureLayer (w : Widget) (s : Style) (layer : StyleLayer) (st : MeasureState) :
    MeasureState :=
  match layer.type with
  | .kBackground | .kBackgroundBorder | .kBorder =>
    if layer.spriteSheet && !layer.spriteBounds.isEmpty then
      if !layer.slicesBounds.isEmpty then
        { st with borderHint :=
          { left := max st.borderHint.left layer.slicesBounds.x,
            top := max st.borderHint.top layer.slicesBounds.y,
            right := max st.borderHint.right (layer.spriteBounds.w - layer.slicesBounds.x2),
            bottom := max st.borderHint.bottom (layer.spriteBounds.h - layer.slicesBounds.y2) } }
      else
        { st with iconHint :=
          { w := max st.iconHint.w layer.spriteBounds.w,
            h := max st.iconHint.h layer.spriteBounds.h } }
    else st
  | .kText =>
    if layer.color.isSome then
      let textSize : Size :=
        match s.styleFontTextSize with
        | some sz => sz
        | none => w.textSize
      { st with
        textHint :=
          { x := st.textHint.x + layer.offset.x,
            y := st.textHint.y + layer.offset.y,
            w := max st.textHint.w (textSize.w + ABS layer.offset.x),
            h := max st.textHint.h (textSize.h + ABS layer.offset.y) },
        textAlign := layer.align }
    else st
  | .kIcon =>
    let icon : Option Size :=
      match w.iconSurface with
      | some isz => some isz
      | none => layer.icon
    match icon with
    | some isz =>
      { st with
        iconHint :=
          { w := max st.iconHint.w (isz.w + ABS layer.offset.x),
            h := max st.iconHint.h (isz.h + ABS layer.offset.y) },
        iconAlign := layer.align }
    | none => st
  | _ => st

/-- Embedded from `Style::applyOnlyDefinedBorders` (declared in the style
module outside the provided sources): overwrite each border side with the
style's raw value when that side is defined (non-negative). -/
def applyOnlyDefinedBorders (border defined : Border) : Border :=
  { left := if 0 ≤ defined.left then defined.left else border.left,
    top := if 0 ≤ defined.top then defined.top else border.top,
    right := if 0 ≤ defined.right then defined.right else border.right,
    bottom := if 0 ≤ defined.bottom then defined.bottom else border.bottom }

/-- Integer clamp with the evaluation order of `std::clamp`. -/
def stdClamp (v lo hi : Int) : Int := if v < lo then lo else if hi < v then hi else v

/-- Output aggregate of `Theme::calcWidgetMetrics`. -/
structure WidgetMetrics where
  sizeHint : Size
  borderHint : Border
  textHint : Rect
  textAlign : Nat
  deriving DecidableEq, Repr

/-- Embedded from `Theme::calcWidgetMetrics` (src/ui/theme.cpp): measure every
selected style layer, apply the style's defined borders and padding, combine
text and icon hints according to their alignment, and clamp the result to the
widget's size limits. -/
def calcWidgetMetrics (w : Widget) (s : Style) : WidgetMetrics :=
  let st0 : MeasureState :=
    { borderHint := ⟨0, 0, 0, 0⟩, textHint := ⟨0, 0, 0, 0⟩,
      textAlign := Nat.lor CENTER MIDDLE, iconHint := ⟨0, 0⟩,
      iconAlign := Nat.lor CENTER MIDDLE }
  let st := (for_each_layer w.styleFlags s).foldl (fun st l => measureLayer w s l st) st0
  let borderHint := applyOnlyDefinedBorders st.borderHint s.rawBorder
  let paddingHint := applyOnlyDefinedBorders ⟨0, 0, 0, 0⟩ s.rawPadding
  let wsum := borderHint.width + paddingHint.width +
    (if Nat.land st.textAlign (Nat.lor LEFT (Nat.lor CENTER RIGHT))
        = Nat.land st.iconAlign (Nat.lor LEFT (Nat.lor CENTER RIGHT))
     then max st.textHint.w st.iconHint.w
     else st.textHint.w + st.iconHint.w)
  let hsum := borderHint.height + paddingHint.height +
    (if Nat.land st.textAlign (Nat.lor TOP (Nat.lor MIDDLE BOTTOM))
        = Nat.land st.iconAlign (Nat.lor TOP (Nat.lor MIDDLE BOTTOM))
     then max st.textHint.h st.iconHint.h
     else st.textHint.h + st.iconHint.h)
  { sizeHint := ⟨stdClamp wsum w.minSize.w w.maxSize.w,
                 stdClamp hsum w.minSize.h w.maxSize.h⟩,
    borderHint := borderHint,
    textHint := st.textHint,
    textAlign := st.textAlign }

/-- Embedded from `Theme::calcSizeHint` (src/ui/theme.cpp): the size-hint
component of the widget metrics. -/
def calcSizeHint (w : Widget) (s : Style) : Size := (calcWidgetMetrics w s).sizeHint

/-- A clamp with ordered bounds lands inside them. -/
theorem stdClamp_bounds (v lo hi : Int) (h : lo ≤ hi) :
    lo ≤ stdClamp v lo hi ∧ stdClamp v lo hi ≤ hi := by
  unfold stdClamp
  split_ifs with h1 h2 <;> constructor <;> omega

/-- Reference widget exercising the size-hint computation. -/
def sampleWidget : Widget :=
  { styleFlags := 0, textSize := ⟨10, 8⟩, iconSurface := none,
    minSize := ⟨0, 0⟩, maxSize := ⟨100, 100⟩ }

/-- Reference style with one text layer. -/
def sampleStyle : Style :=
  { layers := [{ type := .kText, flags := 0, spriteSheet := false,
                 spriteBounds := ⟨0, 0, 0, 0⟩, slicesBounds := ⟨0, 0, 0, 0⟩,
                 color := some 1, offset := ⟨0, 0⟩, align := 8, icon := none }],
    rawBorder := ⟨-1, -1, -1, -1⟩, rawPadding := ⟨-1, -1, -1, -1⟩,
    styleFontTextSize := none }

example : calcSizeHint sampleWidget sampleStyle = ⟨10, 8⟩ := by decide

/-- C10: whenever a widget's minimum size is componentwise at most its maximum
size, the size hint computed by `Theme::calcWidgetMetrics` — and hence
returned by `Theme::calcSizeHint` — lies componentwise between the widget's
minimum and maximum sizes. -/
theorem c10_size_hint_within_limits (w : Widget) (s : Style)
    (hw : w.minSize.w ≤ w.maxSize.w) (hh : w.minSize.h ≤ w.maxSize.h) :
    w.minSize.w ≤ (calcSizeHint w s).w ∧ (calcSizeHint w s).w ≤ w.maxSize.w ∧
    w.minSize.h ≤ (calcSizeHint w s).h ∧ (calcSizeHint w s).h ≤ w.maxSize.h := by
  exact ⟨(stdClamp_bounds _ w.minSize.w w.maxSize.w hw).1,
    (stdClamp_bounds _ w.minSize.w w.maxSize.w hw).2,
    (stdClamp_bounds _ w.minSize.h w.maxSize.h hh).1,
    (stdClamp_bounds _ w.minSize.h w.maxSize.h hh).2⟩

/-- Witness for the size-hint bounds at the concrete reference widget and
style. -/
theorem c10_size_hint_within_limits_witness :
    sampleWidget.minSize.w ≤ sampleWidget.maxSize.w ∧
    sampleWidget.minSize.h ≤ sampleWidget.maxSize.h ∧
    (sampleWidget.minSize.w ≤ (calcSizeHint sampleWidget sampleStyle).w ∧
     (calcSizeHint sampleWidget sampleStyle).w ≤ sampleWidget.maxSize.w ∧
     sampleWidget.minSize.h ≤ (calcSizeHint sampleWidget sampleStyle).h ∧
     (calcSizeHint sampleWidget sampleStyle).h ≤ sampleWidget.maxSize.h) :=
  ⟨by decide, by decide,
   c10_size_hint_within_limits sampleWidget sampleStyle (by decide) (by decide)⟩
